import Mathlib

/-!
Shallow embedding of `src/env_run.py` (a command-dispatch wrapper).

The Python module defines a `Placeholder(str, Enum)` whose class body contains
`ANY_ARGS = {args, shell_args}`.  Because the enum mixes in `str`, that set
literal becomes a fourth enum member whose backing string is the textual
representation of the set, i.e. the characters of
`\x7b'\x7bargs\x7d', '\x7bshell_args\x7d'\x7d` (the order of the two elements
inside the braces depends on the hash seed of the Python run, so it is modelled
here by a Boolean parameter `o` choosing between the two possible orders).
Consequently the test `arg in Placeholder.ANY_ARGS` used by the
`default_placeholders` validator is a substring test on that representation
string, and `Placeholder(v)` can succeed on that representation string.
The embedding reproduces these semantics faithfully.

Paths are modelled as lists of components relative to the filesystem root
(the root itself is `[]`), and the filesystem is modelled by an existence
predicate on such paths.
-/

namespace EnvRun

/-- Literal textual form of the cmd placeholder, `\x7bcmd\x7d`. -/
def cmdStr : String := "\x7bcmd\x7d"

/-- Literal textual form of the args placeholder, `\x7bargs\x7d`. -/
def argsStr : String := "\x7bargs\x7d"

/-- Literal textual form of the shell-args placeholder, `\x7bshell_args\x7d`. -/
def shellArgsStr : String := "\x7bshell_args\x7d"

/-- Backing string of the accidental `ANY_ARGS` enum member: the textual
representation of the two-element set, in one of its two possible element
orders (chosen by `o`, standing for the hash-seed-dependent iteration order
of the Python run). -/
def anyArgsStr : Bool → String
  | true => "\x7b\x27\x7bargs\x7d\x27, \x27\x7bshell_args\x7d\x27\x7d"
  | false => "\x7b\x27\x7bshell_args\x7d\x27, \x27\x7bargs\x7d\x27\x7d"

/-- Python substring containment `needle in hay` for strings. -/
def pyIn (needle hay : String) : Bool :=
  (List.range (hay.data.length + 1)).any fun i => needle.data.isPrefixOf (hay.data.drop i)

/-- The `Preset` enumeration from the source. -/
inductive Preset
  | compose
  | native
  | vagrant
  | vssh
deriving DecidableEq, Repr

/-- Backing string value of each `Preset` member. -/
def presetValue : Preset → String
  | .compose => "compose"
  | .native => "native"
  | .vagrant => "vagrant"
  | .vssh => "vssh"

/-- Value-based lookup `Preset(s)`: succeeds exactly on the four member values
(case-sensitive). -/
def parsePreset (s : String) : Option Preset :=
  if s = "compose" then some .compose
  else if s = "native" then some .native
  else if s = "vagrant" then some .vagrant
  else if s = "vssh" then some .vssh
  else none

/-- The `Placeholder` enumeration from the source, including the accidental
`ANY_ARGS` member produced by the set literal in the class body. -/
inductive Placeholder
  | cmd
  | args
  | shell_args
  | ANY_ARGS
deriving DecidableEq, Repr

/-- Backing string value of each `Placeholder` member (the `ANY_ARGS` value
depends on the run's set iteration order `o`). -/
def Placeholder.value (o : Bool) : Placeholder → String
  | .cmd => cmdStr
  | .args => argsStr
  | .shell_args => shellArgsStr
  | .ANY_ARGS => anyArgsStr o

/-- Value-based lookup `Placeholder(s)`: succeeds exactly on the member
values, which include the accidental `ANY_ARGS` representation string. -/
def parsePlaceholder (o : Bool) (s : String) : Option Placeholder :=
  if s = cmdStr then some .cmd
  else if s = argsStr then some .args
  else if s = shellArgsStr then some .shell_args
  else if s = anyArgsStr o then some .ANY_ARGS
  else none

/-- An args-template token: either a `Placeholder` member or a literal
string (the `Union[Placeholder, str]` item type of the source). -/
inductive Token
  | ph (p : Placeholder)
  | lit (s : String)
deriving DecidableEq, Repr

/-- The string a token presents to Python string comparisons: a
`Placeholder` member is a `str` subclass carrying its backing value. -/
def Token.pyStr (o : Bool) : Token → String
  | .ph p => p.value o
  | .lit s => s

/-- The `clean_args` item validator: try `Placeholder(v)`, fall back to the
raw string on `ValueError`.  (The pydantic `Union[Placeholder, str]` item
coercion computes the same function, so one application models both.) -/
def clean_args (o : Bool) (s : String) : Token :=
  match parsePlaceholder o s with
  | some p => .ph p
  | none => .lit s

/-- The membership test `arg in Placeholder.ANY_ARGS` from the source:
because `ANY_ARGS` is a `str`, this is a substring test against its
backing representation string. -/
def anyArgsTest (o : Bool) (t : Token) : Bool :=
  pyIn (t.pyStr o) (anyArgsStr o)

/-- Second half of the `default_placeholders` validator: unless some token
passes `anyArgsTest`, one any-args placeholder is appended, `shell_args` for
the vagrant and vssh presets and `args` otherwise. -/
def appendPlaceholders (o : Bool) (preset : Preset) (v0 : List Token) : List Token :=
  if v0.any (anyArgsTest o) then v0
  else if preset = .vagrant ∨ preset = .vssh then v0 ++ [Token.ph .shell_args]
  else v0 ++ [Token.ph .args]

/-- The `default_placeholders` validator (`always=True`, so it also runs on
the `None` default): absent args default to a single cmd placeholder, then
placeholders are appended when none is already present. -/
def default_placeholders (o : Bool) (preset : Preset) (v : Option (List Token)) : List Token :=
  appendPlaceholders o preset (v.getD [Token.ph .cmd])

/-- Full resolution of the `args` field: item coercion and `clean_args` on a
provided list (pydantic skips item validators when the field is absent and
the `None` default is used), then `default_placeholders`. -/
def resolveArgs (o : Bool) (preset : Preset) (raw : Option (List String)) : List Token :=
  default_placeholders o preset (raw.map (List.map (clean_args o)))

/-- The `default_prefix` validator (`pre=True, always=True`): a provided
value (even an empty list) is used verbatim; an absent one defaults from the
resolved preset.  The source names this field `prefix`, which is a Lean
keyword, so the embedding calls it `pfx`. -/
def resolvePfx (preset : Preset) (raw : Option (List String)) : List String :=
  match raw with
  | some l => l
  | none =>
    if preset = .vagrant then ["vagrant", "ssh", "--"]
    else if preset = .vssh then ["vssh"]
    else []

/-- Validation errors surfaced during Settings construction. -/
inductive ResolveError
  | invalidPreset
  | invalidLogLevel
deriving DecidableEq, Repr

/-- A resolved `CommandSettings` (the Profile of the spec). -/
structure CommandSettings where
  preset : Preset
  pfx : List String
  args : List Token
deriving DecidableEq, Repr

/-- Raw (pre-validation) form of a profile: each field may be absent. -/
structure RawCommandSettings where
  preset : Option String
  pfx : Option (List String)
  args : Option (List String)
deriving DecidableEq, Repr

/-- Resolution of the `preset` field: a provided value goes through the
value-based enum lookup (failing construction when invalid); an absent value
is filled by the `guess_preset` default factory, whose result is passed in
here as `inferred`. -/
def resolvePresetField (raw : Option String) (inferred : Preset) : Except ResolveError Preset :=
  match raw with
  | none => .ok inferred
  | some s =>
    match parsePreset s with
    | some p => .ok p
    | none => .error .invalidPreset

/-- Resolution of one profile: preset first, then prefix and args (both
dependent on the resolved preset), as the validator order fixes. -/
def resolveCS (o : Bool) (inferred : Preset) (r : RawCommandSettings) :
    Except ResolveError CommandSettings :=
  match resolvePresetField r.preset inferred with
  | .error e => .error e
  | .ok p => .ok ⟨p, resolvePfx p r.pfx, resolveArgs o p r.args⟩

/-- The fixed log-level set of the `LogLevel` literal type. -/
def logLevels : List String :=
  ["CRITICAL", "FATAL", "ERROR", "WARN", "WARNING", "INFO", "DEBUG"]

/-- Resolution of the `log` field: an absent value defaults to INFO; a
provided value is checked, as given, against the literal level set. -/
def resolveLog (raw : Option String) : Except ResolveError String :=
  match raw with
  | none => .ok "INFO"
  | some s => if logLevels.contains s then .ok s else .error .invalidLogLevel

/-- Upper-casing of a string, character by character. -/
def upperStr (s : String) : String :=
  ⟨s.data.map Char.toUpper⟩

/-- Modelled from the spec for comparison only (claim refutation): a variant
of log resolution that upper-cases an explicit value before validating it,
as the spec words describe. -/
def resolveLogSpecUpper : Option String → Except ResolveError String
  | none => .ok "INFO"
  | some s =>
    if logLevels.contains (upperStr s) then .ok (upperStr s) else .error .invalidLogLevel

/-- Resolved top-level `Settings`: a default profile, per-command overrides
(a finite map, modelled as an association list with unique keys), and the
log level. -/
structure Settings where
  default : CommandSettings
  commands : List (String × CommandSettings)
  log : String
deriving DecidableEq, Repr

/-- Raw top-level settings as read from the config file.  The embedding
covers configurations in which the default table is present (possibly
empty); pydantic v1 leaves an absent default unvalidated. -/
structure RawSettings where
  default : RawCommandSettings
  commands : List (String × RawCommandSettings)
  log : Option String
deriving DecidableEq, Repr

/-- Resolution of every per-command override, first error wins. -/
def resolveCommandList (o : Bool) (inferred : Preset) :
    List (String × RawCommandSettings) → Except ResolveError (List (String × CommandSettings))
  | [] => .ok []
  | (n, r) :: rest =>
    match resolveCS o inferred r with
    | .error e => .error e
    | .ok c =>
      match resolveCommandList o inferred rest with
      | .error e => .error e
      | .ok cs => .ok ((n, c) :: cs)

/-- Construction of `Settings`: resolve the default profile, every override
(independently, never merged field-by-field), and the log level; any error
is fatal. -/
def buildSettings (o : Bool) (inferred : Preset) (raw : RawSettings) :
    Except ResolveError Settings :=
  match resolveCS o inferred raw.default with
  | .error e => .error e
  | .ok d =>
    match resolveCommandList o inferred raw.commands with
    | .error e => .error e
    | .ok cs =>
      match resolveLog raw.log with
      | .error e => .error e
      | .ok lg => .ok ⟨d, cs, lg⟩

/-- Characters that `shlex.quote` leaves unescaped (the complement of the
ASCII-mode unsafe pattern): ASCII letters, digits, and `_ @ % + = : , . / -`. -/
def shlexSafe (c : Char) : Bool :=
  c.isAlphanum || c = '_' || c = '@' || c = '%' || c = '+' || c = '=' ||
    c = ':' || c = ',' || c = '.' || c = '/' || c = '-'

/-- The single-quote character as a one-character string. -/
def sq : String := "\x27"

/-- Python `shlex.quote`: empty strings become a pair of single quotes,
strings of safe characters pass through, and anything else is wrapped in
single quotes with each inner single quote replaced by quote-double
quote-quote-double quote-quote. -/
def shlexQuote (s : String) : String :=
  if s = "" then sq ++ sq
  else if s.data.all shlexSafe then s
  else sq ++ (s.replace sq (sq ++ "\x22" ++ sq ++ "\x22" ++ sq)) ++ sq

/-- Rendering of an argument vector as a single shell-quoted command line
(`shlex.join` semantics: quote each token, join with single spaces). -/
def shlexJoin (argv : List String) : String :=
  String.intercalate " " (argv.map shlexQuote)

/-- Observable outcome of one dispatch: either a child process is spawned
with the given argument vector (the exit code is then the child's, passed
through), or, in dry-run mode, a line is printed and the given exit code is
returned with no child process. -/
inductive DispatchResult
  | execChild (argv : List String)
  | dryRunPrint (line : String) (exitCode : Nat)
deriving DecidableEq, Repr

/-- Expansion of one template token inside `run_command`, following the
source's if/elif chain of Python string comparisons against the three
placeholder members; any other token is appended as its own string. -/
def expandToken (o : Bool) (command : String) (args : List String) (t : Token) : List String :=
  if t.pyStr o = cmdStr then [command]
  else if t.pyStr o = argsStr then args
  else if t.pyStr o = shellArgsStr then args.map shlexQuote
  else [t.pyStr o]

/-- Profile selection in `run_command`: the per-command override when the
command is a key of the mapping, the default profile otherwise. -/
def selectProfile (s : Settings) (command : String) : CommandSettings :=
  match s.commands.lookup command with
  | some c => c
  | none => s.default

/-- The final argument vector built by `run_command`: a copy of the selected
profile's prefix, extended token by token over the args template. -/
def buildFinalArgs (o : Bool) (cs : CommandSettings) (command : String) (args : List String) :
    List String :=
  cs.args.foldl (fun acc t => acc ++ expandToken o command args t) cs.pfx

/-- Command dispatch.  The expansion and selection logic follows
`run_command` in `src/env_run.py`.  The dry-run branch is Modelled from the
spec: the snapshot under `src/` has no dry-run flag (it always spawns), and
the spec's step 3 of Command Dispatch says that with `dry_run` set the final
vector is rendered as a single shell-quoted command line on standard output
and exit code 0 is returned without executing anything. -/
def run_command (o : Bool) (s : Settings) (dryRun : Bool) (command : String)
    (args : List String) : DispatchResult :=
  let final := buildFinalArgs o (selectProfile s command) command args
  if dryRun then .dryRunPrint (shlexJoin final) 0
  else .execChild final

/-- Observable outcome of a whole run of `main`. -/
inductive MainOutcome
  | configError (e : ResolveError)
  | usageError (exitCode : Nat)
  | ran (r : DispatchResult)
deriving DecidableEq, Repr

/-- The `main` entry point: construct `Settings` (a validation error aborts
the run before any dispatch), then require at least one CLI token (else a
usage error with exit code 1), then dispatch. -/
def mainModel (o : Bool) (inferred : Preset) (raw : RawSettings) (dryRun : Bool)
    (argv : List String) : MainOutcome :=
  match buildSettings o inferred raw with
  | .error e => .configError e
  | .ok s =>
    match argv with
    | [] => .usageError 1
    | c :: rest => .ran (run_command o s dryRun c rest)

/-- Parent directories of a path, nearest first, ending with the root `[]`
(mirroring `Path.parents`).  The root itself has no parents. -/
def parentsOf (l : List String) : List (List String) :=
  (List.range l.length).reverse.map fun k => l.take k

/-- The directories `guess_preset` iterates over: the current working
directory followed by each of its ancestors up to and including the root. -/
def visitedDirs (cwd : List String) : List (List String) :=
  cwd :: parentsOf cwd

/-- The loop body of `guess_preset` over an explicit directory list. -/
def guessPresetGo (fs : List String → Bool) : List (List String) → Preset
  | [] => .native
  | d :: rest =>
    if fs (d ++ [".vagrant", "vssh.cfg"]) then .vssh
    else if fs (d ++ [".vagrant"]) then .vagrant
    else guessPresetGo fs rest

/-- `guess_preset` as a pure function of the filesystem-existence predicate
`fs` and the current working directory: walk the directory and its ancestors
in order, checking first for `.vagrant/vssh.cfg` and then for `.vagrant`;
fall back to the native preset.  Totality of the function reflects that the
walk never raises. -/
def guess_preset (fs : List String → Bool) (cwd : List String) : Preset :=
  guessPresetGo fs (visitedDirs cwd)

/-- Tokens that are genuine any-args placeholders in the sense of the spec. -/
def isAnyArgsTok : Token → Bool
  | .ph .args => true
  | .ph .shell_args => true
  | _ => false

/-- Number of genuine any-args placeholders in a template. -/
def countAnyArgs (l : List Token) : Nat :=
  (l.filter isAnyArgsTok).length

/-- Declarative token expansion in the words of the claims: the command name
for the cmd placeholder, the raw arguments verbatim for the args
placeholder, the raw arguments individually shell-quoted for the shell-args
placeholder, the token itself for a literal (and the accidental member
expands to its own backing string). -/
def declExpand (o : Bool) (command : String) (args : List String) : Token → List String
  | .ph .cmd => [command]
  | .ph .args => args
  | .ph .shell_args => args.map shlexQuote
  | .ph .ANY_ARGS => [anyArgsStr o]
  | .lit s => [s]

/-- A literal token is clean when its string differs from the three
placeholder forms, so the string comparisons in `run_command` treat it as a
literal; placeholder tokens are always clean.  Resolution only ever produces
clean literals, since `clean_args` converts the placeholder forms. -/
def cleanTok : Token → Bool
  | .ph _ => true
  | .lit s => !(s == cmdStr) && !(s == argsStr) && !(s == shellArgsStr)

/-! Helper lemmas. -/

theorem argsStr_ne_cmdStr : argsStr ≠ cmdStr := by decide

theorem shellArgsStr_ne_cmdStr : shellArgsStr ≠ cmdStr := by decide

theorem shellArgsStr_ne_argsStr : shellArgsStr ≠ argsStr := by decide

theorem anyArgsStr_ne (o : Bool) :
    anyArgsStr o ≠ cmdStr ∧ anyArgsStr o ≠ argsStr ∧ anyArgsStr o ≠ shellArgsStr := by
  cases o <;> exact ⟨by decide, by decide, by decide⟩

theorem expandToken_cmd (o : Bool) (c : String) (a : List String) :
    expandToken o c a (Token.ph .cmd) = [c] := by
  simp [expandToken, Token.pyStr, Placeholder.value]

theorem expandToken_args (o : Bool) (c : String) (a : List String) :
    expandToken o c a (Token.ph .args) = a := by
  simp [expandToken, Token.pyStr, Placeholder.value, argsStr_ne_cmdStr]

theorem expandToken_shell_args (o : Bool) (c : String) (a : List String) :
    expandToken o c a (Token.ph .shell_args) = a.map shlexQuote := by
  simp [expandToken, Token.pyStr, Placeholder.value, shellArgsStr_ne_cmdStr,
    shellArgsStr_ne_argsStr]

theorem expandToken_any_args (o : Bool) (c : String) (a : List String) :
    expandToken o c a (Token.ph .ANY_ARGS) = [anyArgsStr o] := by
  obtain ⟨n1, n2, n3⟩ := anyArgsStr_ne o
  simp [expandToken, Token.pyStr, Placeholder.value, n1, n2, n3]

theorem expandToken_lit (o : Bool) (c : String) (a : List String) (s : String)
    (h1 : s ≠ cmdStr) (h2 : s ≠ argsStr) (h3 : s ≠ shellArgsStr) :
    expandToken o c a (Token.lit s) = [s] := by
  simp [expandToken, Token.pyStr, h1, h2, h3]

theorem foldl_expand {α β : Type} (f : α → List β) :
    ∀ (l : List α) (init : List β),
      l.foldl (fun acc t => acc ++ f t) init = init ++ l.flatMap f
  | [], init => by simp
  | t :: rest, init => by
    simp only [List.foldl_cons, List.flatMap_cons]
    rw [foldl_expand f rest (init ++ f t), List.append_assoc]

theorem buildFinalArgs_eq_flatMap (o : Bool) (cs : CommandSettings) (command : String)
    (args : List String) :
    buildFinalArgs o cs command args =
      cs.pfx ++ cs.args.flatMap (expandToken o command args) := by
  unfold buildFinalArgs
  exact foldl_expand _ cs.args cs.pfx

theorem flatMap_eq_of_mem {α β : Type} {l : List α} {f g : α → List β}
    (h : ∀ a ∈ l, f a = g a) : l.flatMap f = l.flatMap g := by
  induction l with
  | nil => rfl
  | cons a rest ih =>
    simp only [List.flatMap_cons]
    rw [h a (by exact List.mem_cons_self a rest), ih fun x hx => h x (List.mem_cons_of_mem a hx)]

theorem expandToken_eq_declExpand (o : Bool) (command : String) (args : List String)
    (t : Token) (h : cleanTok t = true) :
    expandToken o command args t = declExpand o command args t := by
  cases t with
  | lit s =>
    simp only [cleanTok, Bool.and_eq_true, Bool.not_eq_true', beq_eq_false_iff_ne] at h
    obtain ⟨⟨h1, h2⟩, h3⟩ := h
    rw [expandToken_lit o command args s h1 h2 h3]
    rfl
  | ph p =>
    cases p with
    | cmd => rw [expandToken_cmd]; rfl
    | args => rw [expandToken_args]; rfl
    | shell_args => rw [expandToken_shell_args]; rfl
    | ANY_ARGS => rw [expandToken_any_args]; rfl

theorem clean_args_clean (o : Bool) (s : String) : cleanTok (clean_args o s) = true := by
  unfold clean_args
  cases hp : parsePlaceholder o s with
  | some p => rfl
  | none =>
    have h1 : s ≠ cmdStr := fun h => by
      simp [parsePlaceholder, h] at hp
    have h2 : s ≠ argsStr := fun h => by
      simp [parsePlaceholder, h, argsStr_ne_cmdStr] at hp
    have h3 : s ≠ shellArgsStr := fun h => by
      simp [parsePlaceholder, h, shellArgsStr_ne_cmdStr, shellArgsStr_ne_argsStr] at hp
    simp [cleanTok, h1, h2, h3]

theorem mem_coerced_clean (o : Bool) (raw : Option (List String)) (t : Token)
    (ht : t ∈ (raw.map (List.map (clean_args o))).getD [Token.ph .cmd]) :
    cleanTok t = true := by
  cases raw with
  | none =>
    simp only [Option.map_none', Option.getD_none, List.mem_singleton] at ht
    rw [ht]
    rfl
  | some l =>
    simp only [Option.map_some', Option.getD_some, List.mem_map] at ht
    obtain ⟨s, _, rfl⟩ := ht
    exact clean_args_clean o s

theorem resolveArgs_clean (o : Bool) (p : Preset) (raw : Option (List String)) :
    ∀ t ∈ resolveArgs o p raw, cleanTok t = true := by
  intro t ht
  unfold resolveArgs default_placeholders appendPlaceholders at ht
  split at ht
  · exact mem_coerced_clean o raw t ht
  · split at ht
    · rcases List.mem_append.mp ht with h | h
      · exact mem_coerced_clean o raw t h
      · rw [List.mem_singleton.mp h]; rfl
    · rcases List.mem_append.mp ht with h | h
      · exact mem_coerced_clean o raw t h
      · rw [List.mem_singleton.mp h]; rfl

theorem guessPresetGo_find (fs : List String → Bool) :
    ∀ ds : List (List String),
      guessPresetGo fs ds =
        match ds.find? (fun d => fs (d ++ [".vagrant", "vssh.cfg"]) || fs (d ++ [".vagrant"])) with
        | none => Preset.native
        | some d => if fs (d ++ [".vagrant", "vssh.cfg"]) then Preset.vssh else Preset.vagrant
  | [] => rfl
  | d :: rest => by
    cases h1 : fs (d ++ [".vagrant", "vssh.cfg"]) with
    | true => simp [guessPresetGo, List.find?, h1]
    | false =>
      cases h2 : fs (d ++ [".vagrant"]) with
      | true => simp [guessPresetGo, List.find?, h1, h2]
      | false => simp [guessPresetGo, List.find?, h1, h2, guessPresetGo_find fs rest]

/-! Claim theorems. -/

/-- C1: the claim fails on the code.  The all-literal template consisting of
the single literal token "args" resolves unchanged: the literal is a
substring of the backing string of the accidental `ANY_ARGS` member, so the
membership test of `default_placeholders` accepts it and no any-args
placeholder is appended.  The resolved profile carries zero any-args
placeholders and dispatch drops the runtime arguments. -/
theorem resolved_template_drops_runtime_args :
    resolveArgs true Preset.native (some ["args"]) = [Token.lit "args"] ∧
    countAnyArgs (resolveArgs true Preset.native (some ["args"])) = 0 ∧
    run_command true
        ⟨⟨Preset.native, [], resolveArgs true Preset.native (some ["args"])⟩, [], "INFO"⟩
        false "build" ["x", "y"] = .execChild ["args"] := by
  refine ⟨by decide, by decide, by decide⟩

/-- C2: with dry_run set, Command Dispatch renders the final vector as a
single shell-quoted line with exit code 0 and never spawns a child process,
whatever the settings, command and arguments are (in particular whether or
not the would-be command exists). -/
theorem dry_run_prints_and_exits_zero (o : Bool) (s : Settings) (command : String)
    (raw : List String) :
    run_command o s true command raw =
      .dryRunPrint (shlexJoin (buildFinalArgs o (selectProfile s command) command raw)) 0 ∧
    ∀ argv, run_command o s true command raw ≠ .execChild argv := by
  constructor
  · rfl
  · intro argv h
    simp [run_command] at h

/-- C3: the claim fails on the code.  A provided template consisting of the
single empty-string literal already passes the membership test (the empty
string is a substring of every string, in particular of the backing string
of the accidental `ANY_ARGS` member), so the code keeps it unchanged where
the claim requires an any-args placeholder to be appended.  The third
conjunct shows the absent case, which does follow the claimed rule. -/
theorem empty_literal_suppresses_append :
    resolveArgs true Preset.native (some [""]) = [Token.lit ""] ∧
    resolveArgs true Preset.native (some [""]) ≠
      [Token.lit "", Token.ph Placeholder.args] ∧
    resolveArgs true Preset.native none =
      [Token.ph Placeholder.cmd, Token.ph Placeholder.args] := by
  refine ⟨by decide, by decide, by decide⟩

/-- C4: Command Dispatch selects the per-command profile exactly when the
command is a key of the mapping and the default profile otherwise, and the
final vector is the selected profile's prefix followed, token by token in
template order, by the command name for a cmd placeholder, the raw
arguments verbatim for an args placeholder, the raw arguments individually
shell-quoted for a shell-args placeholder, and the token itself for a
literal.  The hypothesis (every template literal differs from the three
placeholder forms) holds for every template produced by resolution, by
`resolveArgs_clean`. -/
theorem dispatch_expansion (o : Bool) (s : Settings) (command : String) (raw : List String)
    (hclean : ∀ t ∈ (selectProfile s command).args, cleanTok t = true) :
    (∀ cs, s.commands.lookup command = some cs → selectProfile s command = cs) ∧
    (s.commands.lookup command = none → selectProfile s command = s.default) ∧
    run_command o s false command raw =
      .execChild ((selectProfile s command).pfx ++
        (selectProfile s command).args.flatMap (declExpand o command raw)) := by
  refine ⟨?_, ?_, ?_⟩
  · intro cs h
    simp [selectProfile, h]
  · intro h
    simp [selectProfile, h]
  · show DispatchResult.execChild (buildFinalArgs o (selectProfile s command) command raw) = _
    rw [buildFinalArgs_eq_flatMap,
      flatMap_eq_of_mem fun t ht => expandToken_eq_declExpand o command raw t (hclean t ht)]

/-- C4 witness: the spec's dispatch-correctness example, profile with empty
prefix and template cmd-then-args, command "build", raw arguments
preserving an embedded space, dispatched against settings where "build" is
an override key. -/
theorem dispatch_expansion_witness :
    run_command true
        ⟨⟨Preset.native, ["d"], [Token.ph .cmd, Token.ph .args]⟩,
          [("build", ⟨Preset.native, [], [Token.ph .cmd, Token.ph .args]⟩)], "INFO"⟩
        false "build" ["-x", "a b"] = .execChild ["build", "-x", "a b"] := by
  rw [(dispatch_expansion true
    ⟨⟨Preset.native, ["d"], [Token.ph .cmd, Token.ph .args]⟩,
      [("build", ⟨Preset.native, [], [Token.ph .cmd, Token.ph .args]⟩)], "INFO"⟩
    "build" ["-x", "a b"] (by decide)).2.2]
  decide

/-- C5 counterexample: the claim says an explicit log value is upper-cased
before validation; the code validates the value as given, so "info" (whose
upper-casing is the valid level INFO, as the spec-worded variant shows) is
rejected with InvalidLogLevel. -/
theorem log_value_not_uppercased :
    resolveLog (some "info") = .error .invalidLogLevel ∧
    resolveLogSpecUpper (some "info") = .ok "INFO" := by
  refine ⟨rfl, rfl⟩

/-- C5 as amended: an explicitly given log value is validated case
sensitively, exactly as given, against the fixed level set, failing with
InvalidLogLevel when it is not a member; an absent value defaults to
INFO. -/
theorem log_resolution (s : String) :
    resolveLog none = .ok "INFO" ∧
    (logLevels.contains s = true → resolveLog (some s) = .ok s) ∧
    (logLevels.contains s = false → resolveLog (some s) = .error .invalidLogLevel) := by
  refine ⟨rfl, ?_, ?_⟩
  · intro h
    have h2 : s ∈ logLevels := by simpa using h
    simp [resolveLog, h2]
  · intro h
    have h2 : s ∉ logLevels := by simpa using h
    simp [resolveLog, h2]

/-- C5 witness: the valid member WARN is accepted as given and the
non-member lower-case form is rejected. -/
theorem log_resolution_witness :
    resolveLog (some "WARN") = .ok "WARN" ∧
    resolveLog (some "warn") = .error .invalidLogLevel :=
  ⟨(log_resolution "WARN").2.1 (by decide), (log_resolution "warn").2.2 (by decide)⟩

/-- C6: a provided raw prefix, including an explicitly empty one, is used
verbatim; an absent prefix defaults to the vagrant ssh prefix for the
vagrant preset, to the vssh prefix for the vssh preset, and to the empty
sequence for every other preset. -/
theorem prefix_resolution (p : Preset) (l : List String) :
    resolvePfx p (some l) = l ∧
    resolvePfx Preset.vagrant none = ["vagrant", "ssh", "--"] ∧
    resolvePfx Preset.vssh none = ["vssh"] ∧
    (p ≠ Preset.vagrant → p ≠ Preset.vssh → resolvePfx p none = []) := by
  refine ⟨rfl, rfl, rfl, ?_⟩
  intro h1 h2
  cases p
  · rfl
  · rfl
  · exact absurd rfl h1
  · exact absurd rfl h2

/-- C6 witness: an explicitly empty prefix stays empty for the vagrant
preset, and the compose preset defaults to the empty prefix. -/
theorem prefix_resolution_witness :
    resolvePfx Preset.vagrant (some []) = [] ∧ resolvePfx Preset.compose none = [] :=
  ⟨(prefix_resolution Preset.vagrant []).1,
    (prefix_resolution Preset.compose []).2.2.2 (by decide) (by decide)⟩

/-- C7: a provided preset naming one of the enumerated members resolves to
that member (the lookup succeeds exactly on the case-sensitive member
values); an absent preset is filled by the inference result; an invalid
provided value fails resolution with InvalidPreset, and Settings
construction inside main then aborts before any dispatch, so no process is
spawned. -/
theorem preset_resolution (s : String) (inferred : Preset) (pr : Option (List String))
    (ar : Option (List String)) (cmds : List (String × RawCommandSettings))
    (lg : Option String) (o dry : Bool) (argv : List String) :
    (∀ p : Preset, parsePreset (presetValue p) = some p) ∧
    resolvePresetField none inferred = .ok inferred ∧
    (∀ p, parsePreset s = some p → resolvePresetField (some s) inferred = .ok p) ∧
    (parsePreset s = none →
      resolvePresetField (some s) inferred = .error .invalidPreset ∧
      mainModel o inferred ⟨⟨some s, pr, ar⟩, cmds, lg⟩ dry argv =
        .configError .invalidPreset) := by
  refine ⟨?_, rfl, ?_, ?_⟩
  · intro p
    cases p <;> rfl
  · intro p h
    simp [resolvePresetField, h]
  · intro h
    have h2 : resolvePresetField (some s) inferred = .error .invalidPreset := by
      simp [resolvePresetField, h]
    refine ⟨h2, ?_⟩
    simp [mainModel, buildSettings, resolveCS, h2]

/-- C7 witness: the value "Vagrant" is rejected (the member values are
lower-case, so the lookup is case-sensitive) and the whole run aborts with
InvalidPreset before dispatch. -/
theorem preset_resolution_witness :
    parsePreset "Vagrant" = none ∧
    mainModel true Preset.native ⟨⟨some "Vagrant", none, none⟩, [], none⟩ false ["build"] =
      .configError .invalidPreset := by
  refine ⟨by decide, ?_⟩
  exact ((preset_resolution "Vagrant" Preset.native none none [] none true false
    ["build"]).2.2.2 (by decide)).2

/-- C8: the claim fails on the code.  Parsing is total and the three literal
placeholder forms do parse to placeholders, but the set literal in the enum
class body produced an accidental fourth member whose backing string is the
textual representation of the set, and that string also parses to a
Placeholder instead of staying a literal token. -/
theorem parse_accepts_accidental_member :
    parsePlaceholder true (anyArgsStr true) = some Placeholder.ANY_ARGS ∧
    clean_args true (anyArgsStr true) = Token.ph Placeholder.ANY_ARGS ∧
    anyArgsStr true ≠ cmdStr ∧ anyArgsStr true ≠ argsStr ∧ anyArgsStr true ≠ shellArgsStr ∧
    clean_args true cmdStr = Token.ph Placeholder.cmd ∧
    clean_args true argsStr = Token.ph Placeholder.args ∧
    clean_args true shellArgsStr = Token.ph Placeholder.shell_args := by
  refine ⟨by decide, by decide, by decide, by decide, by decide, by decide, by decide, by decide⟩

/-- C9: preset inference visits the working directory and then each
ancestor up to and including the root, in order; the first visited
directory containing `.vagrant/vssh.cfg` or `.vagrant` decides the result,
with the vssh marker checked first, and the inference falls back to the
native preset when no visited directory has either marker.  Totality of
the embedded function over every existence predicate reflects that the
walk never raises for a missing directory. -/
theorem guess_preset_first_marker (fs : List String → Bool) (cwd : List String) :
    guess_preset fs cwd =
      (match (visitedDirs cwd).find?
          (fun d => fs (d ++ [".vagrant", "vssh.cfg"]) || fs (d ++ [".vagrant"])) with
        | none => Preset.native
        | some d =>
          if fs (d ++ [".vagrant", "vssh.cfg"]) then Preset.vssh else Preset.vagrant) ∧
    (visitedDirs cwd).head? = some cwd ∧ [] ∈ visitedDirs cwd := by
  refine ⟨guessPresetGo_find fs _, rfl, ?_⟩
  cases cwd with
  | nil => exact List.mem_cons_self _ _
  | cons a l =>
    apply List.mem_cons_of_mem
    apply List.mem_map.mpr
    refine ⟨0, ?_, by simp⟩
    simp [List.mem_reverse, List.mem_range]

/-- C10: a provided but explicitly empty raw args sequence resolves to the
single appended any-args placeholder (shell-args for the vagrant and vssh
presets, args otherwise) with no cmd token, so dispatch yields the prefix
followed only by the expansion of the raw arguments, and a command name
occurring in neither the prefix nor that expansion is absent from the
final vector. -/
theorem empty_args_template (o : Bool) (p : Preset) (pl : List String) (command : String)
    (raw : List String) (h1 : command ∉ pl) (h2 : command ∉ raw)
    (h3 : command ∉ raw.map shlexQuote) :
    resolveArgs o p (some []) =
      [Token.ph (if p = .vagrant ∨ p = .vssh then Placeholder.shell_args
        else Placeholder.args)] ∧
    Token.ph Placeholder.cmd ∉ resolveArgs o p (some []) ∧
    buildFinalArgs o ⟨p, pl, resolveArgs o p (some [])⟩ command raw =
      pl ++ (if p = .vagrant ∨ p = .vssh then raw.map shlexQuote else raw) ∧
    command ∉ buildFinalArgs o ⟨p, pl, resolveArgs o p (some [])⟩ command raw := by
  have hres : resolveArgs o p (some []) =
      [Token.ph (if p = .vagrant ∨ p = .vssh then Placeholder.shell_args
        else Placeholder.args)] := by
    by_cases hp : p = .vagrant ∨ p = .vssh
    · simp [resolveArgs, default_placeholders, appendPlaceholders, hp]
    · simp [resolveArgs, default_placeholders, appendPlaceholders, hp]
  have hbuild : buildFinalArgs o ⟨p, pl, resolveArgs o p (some [])⟩ command raw =
      pl ++ (if p = .vagrant ∨ p = .vssh then raw.map shlexQuote else raw) := by
    rw [buildFinalArgs_eq_flatMap]
    show pl ++ (resolveArgs o p (some [])).flatMap (expandToken o command raw) = _
    rw [hres]
    by_cases hp : p = .vagrant ∨ p = .vssh
    · simp [hp, expandToken_shell_args]
    · simp [hp, expandToken_args]
  refine ⟨hres, ?_, hbuild, ?_⟩
  · rw [hres]
    intro hmem
    rcases List.mem_singleton.mp hmem with h
    by_cases hp : p = .vagrant ∨ p = .vssh
    · rw [if_pos hp] at h
      exact Placeholder.noConfusion (Token.ph.inj h)
    · rw [if_neg hp] at h
      exact Placeholder.noConfusion (Token.ph.inj h)
  · rw [hbuild]
    intro hmem
    rcases List.mem_append.mp hmem with h | h
    · exact h1 h
    · by_cases hp : p = .vagrant ∨ p = .vssh
      · rw [if_pos hp] at h
        exact h3 h
      · rw [if_neg hp] at h
        exact h2 h

/-- C10 witness: with the native preset, an empty args list, prefix "pre",
command "build" and one raw argument, the final vector is the prefix
followed by the raw argument and does not contain the command name. -/
theorem empty_args_template_witness :
    resolveArgs true Preset.native (some []) = [Token.ph Placeholder.args] ∧
    buildFinalArgs true ⟨Preset.native, ["pre"], resolveArgs true Preset.native (some [])⟩
      "build" ["x"] = ["pre", "x"] ∧
    "build" ∉ buildFinalArgs true ⟨Preset.native, ["pre"], resolveArgs true Preset.native
      (some [])⟩ "build" ["x"] := by
  have h := empty_args_template true Preset.native ["pre"] "build" ["x"]
    (by decide) (by decide) (by decide)
  refine ⟨?_, ?_, h.2.2.2⟩
  · rw [h.1]
    decide
  · rw [h.2.2.1]
    decide

end EnvRun

